import Mathlib

/-!
Verification of the `query_mag` module of the `ci_mapping` repository
(`src/ci_mapping/data/query_mag.py`): a shallow embedding of the
expression builder (`build_expr`, `build_composite_expr`), the retrying
remote client (`query_mag_api`), and the paginated harvester
(`query_fields_of_study`), together with theorems settling the spec's
claims about them.

Python strings are modelled as Lean `String`, Python ints as `Int`,
dictionaries as association lists with unique keys, JSON values as the
inductive `Value`, raised exceptions as `Except.error`, and generators as
the lists of their yields.  The pagination `while True` loop is modelled
with explicit fuel (`none` = fuel exhausted before the loop terminated).
-/

/-- A query item passed to `build_expr`: Python `str` or `int`. -/
inductive Item where
  | str (s : String)
  | int (n : Int)

/-- The literal `"expr=OR(\x7b\x7d)"` template of the Python source; only its
length (11) enters the packing arithmetic. -/
def query_prefix_format : String := "expr=OR(\x7b\x7d)"

/-- Per-item rendering inside `build_expr`: strings quoted, ints unquoted. -/
def formatItem (entityName : String) : Item → String
  | Item.str s => entityName ++ "=\x27" ++ s ++ "\x27"
  | Item.int n => entityName ++ "=" ++ toString n

/-- Python `",".join(expr)`. -/
def joinComma : List String → String
  | [] => ""
  | [x] => x
  | x :: y :: rest => x ++ "," ++ joinComma (y :: rest)

/-- `query_prefix_format.format(",".join(batch))`: the string actually yielded
for one batch of formatted items. -/
def renderBatch (batch : List String) : String :=
  "expr=OR(" ++ joinComma batch ++ ")"

/-- The `length` computed by `build_expr` before appending `fi` to the current
batch: `sum(len(e) + 1 for e in expr) + len(formatted_item) + len(query_prefix_format)`. -/
def exprLen (expr : List String) (fi : String) : Nat :=
  (expr.map (fun e => e.length + 1)).sum + fi.length + query_prefix_format.length

/-- The loop of `build_expr`, carrying the current batch `expr`; returns the
list of yielded expression strings. -/
def buildExprGo (entityName : String) (maxLength : Nat) :
    List Item → List String → List String
  | [], expr => if expr.length > 0 then [renderBatch expr] else []
  | item :: rest, expr =>
    let fi := formatItem entityName item
    if exprLen expr fi ≥ maxLength then
      renderBatch expr :: buildExprGo entityName maxLength rest [fi]
    else
      buildExprGo entityName maxLength rest (expr ++ [fi])

/-- `build_expr(query_items, entity_name, max_length)`: the list of yielded
expressions (the Python default for `max_length` is 16000). -/
def build_expr (queryItems : List Item) (entityName : String) (maxLength : Nat) :
    List String :=
  buildExprGo entityName maxLength queryItems []

/-- Same recursion as `buildExprGo` but returning each yielded batch as the
list of formatted items it contains, before rendering. -/
def buildExprBatchesGo (entityName : String) (maxLength : Nat) :
    List Item → List String → List (List String)
  | [], expr => if expr.length > 0 then [expr] else []
  | item :: rest, expr =>
    let fi := formatItem entityName item
    if exprLen expr fi ≥ maxLength then
      expr :: buildExprBatchesGo entityName maxLength rest [fi]
    else
      buildExprBatchesGo entityName maxLength rest (expr ++ [fi])

/-- The batches of `build_expr`, i.e. the partition of the rendered items
across the yielded expressions. -/
def buildExprBatches (queryItems : List Item) (entityName : String) (maxLength : Nat) :
    List (List String) :=
  buildExprBatchesGo entityName maxLength queryItems []

theorem buildExprGo_eq_map (e : String) (m : Nat) :
    ∀ (l : List Item) (acc : List String),
      buildExprGo e m l acc = (buildExprBatchesGo e m l acc).map renderBatch := by
  intro l
  induction l with
  | nil =>
    intro acc
    simp only [buildExprGo, buildExprBatchesGo]
    by_cases h : acc.length > 0 <;> simp [h]
  | cons item rest ih =>
    intro acc
    simp only [buildExprGo, buildExprBatchesGo]
    by_cases h : exprLen acc (formatItem e item) ≥ m <;> simp [h, ih]

theorem batchesGo_join (e : String) (m : Nat) :
    ∀ (l : List Item) (acc : List String),
      (buildExprBatchesGo e m l acc).flatten = acc ++ l.map (formatItem e) := by
  intro l
  induction l with
  | nil =>
    intro acc
    simp only [buildExprBatchesGo]
    by_cases h : acc.length > 0
    · simp [h]
    · simp only [gt_iff_lt, not_lt, Nat.le_zero] at h
      rw [List.length_eq_zero] at h
      simp [h]
  | cons item rest ih =>
    intro acc
    simp only [buildExprBatchesGo, List.map_cons]
    by_cases h : exprLen acc (formatItem e item) ≥ m <;> simp [h, ih]

/-- C1: for every input list of string/int items, `build_expr` yields the
renderings of a sequence of batches whose concatenation, in emission order, is
exactly the rendering of the original input list: every item lands in exactly
one emitted expression, in input order, none duplicated or dropped. -/
theorem build_expr_round_trip (items : List Item) (e : String) (m : Nat) :
    build_expr items e m = (buildExprBatches items e m).map renderBatch ∧
    (buildExprBatches items e m).flatten = items.map (formatItem e) := by
  constructor
  · exact buildExprGo_eq_map e m items []
  · simpa using batchesGo_join e m items []

/-- Total rendered length of the items of a batch. -/
def sumLen (b : List String) : Nat := (b.map String.length).sum

theorem query_prefix_format_length : query_prefix_format.length = 11 := by decide

theorem sum_map_length_add_one : ∀ (b : List String),
    (b.map (fun e => e.length + 1)).sum = sumLen b + b.length := by
  intro b
  induction b with
  | nil => simp [sumLen]
  | cons x t ih =>
    simp only [sumLen, List.map_cons, List.sum_cons, List.length_cons] at *
    omega

theorem exprLen_eq (acc : List String) (fi : String) :
    exprLen acc fi = sumLen acc + acc.length + fi.length + 11 := by
  simp only [exprLen, sum_map_length_add_one, query_prefix_format_length]

theorem joinComma_length : ∀ (b : List String), b ≠ [] →
    (joinComma b).length + 1 = sumLen b + b.length := by
  intro b
  induction b with
  | nil => intro h; exact absurd rfl h
  | cons x t ih =>
    intro _
    cases t with
    | nil => simp [joinComma, sumLen]
    | cons y rest =>
      have h2 := ih (by simp)
      have hc : ("," : String).length = 1 := by decide
      have e1 : joinComma (x :: y :: rest) = x ++ "," ++ joinComma (y :: rest) := rfl
      have e2 : sumLen (x :: y :: rest) = x.length + sumLen (y :: rest) := by
        simp [sumLen]
      rw [e1, e2, String.length_append, String.length_append, hc]
      simp only [List.length_cons] at *
      omega

theorem renderBatch_length (b : List String) (h : b ≠ []) :
    (renderBatch b).length = sumLen b + b.length + 8 := by
  have h1 := joinComma_length b h
  have h2 : ("expr=OR(" : String).length = 8 := by decide
  have h3 : (")" : String).length = 1 := by decide
  simp only [renderBatch, String.length_append, h2, h3]
  omega

theorem batchesGo_budget_aux (e : String) (m : Nat) :
    ∀ (l : List Item) (acc : List String),
      (2 ≤ acc.length → sumLen acc + acc.length + 10 < m) →
      ∀ b ∈ buildExprBatchesGo e m l acc, 2 ≤ b.length →
        sumLen b + b.length + 10 < m := by
  intro l
  induction l with
  | nil =>
    intro acc hacc b hb
    simp only [buildExprBatchesGo] at hb
    by_cases h : acc.length > 0
    · rw [if_pos h] at hb
      simp only [List.mem_singleton] at hb
      subst hb; exact hacc
    · rw [if_neg h] at hb
      simp at hb
  | cons item rest ih =>
    intro acc hacc b hb
    simp only [buildExprBatchesGo] at hb
    by_cases h : exprLen acc (formatItem e item) ≥ m
    · rw [if_pos h] at hb
      rcases List.mem_cons.mp hb with rfl | hb2
      · exact hacc
      · exact ih [formatItem e item] (by intro h2; simp at h2) b hb2
    · rw [if_neg h] at hb
      refine ih (acc ++ [formatItem e item]) ?_ b hb
      intro _
      rw [exprLen_eq] at h
      simp only [sumLen, List.map_append, List.sum_append, List.length_append,
        List.map_cons, List.map_nil, List.sum_cons, List.sum_nil, List.length_cons,
        List.length_nil] at *
      omega

/-- C2 counterexample: with `max_length = 8` and the single item `"a"`,
`build_expr` yields the degenerate expression `expr=OR()` of length 9 > 8,
an over-budget expression containing no item at all, not a single item whose
rendering alone exceeds the budget, so the claimed exception does not cover it. -/
theorem build_expr_budget_counterexample :
    build_expr [Item.str "a"] "Id" 8 = ["expr=OR()", "expr=OR(Id=\x27a\x27)"] ∧
    buildExprBatches [Item.str "a"] "Id" 8 = [[], ["Id=\x27a\x27"]] ∧
    8 < ("expr=OR()" : String).length := by
  refine ⟨?_, ?_, ?_⟩ <;> decide

/-- C2 (amended): every expression yielded by `build_expr` whose batch holds
at least two items has length at most `max_length`; only expressions holding
zero or one item (the degenerate empty flush, or a batch whose single item was
placed right after a flush) may exceed the budget, and such items are still
yielded rather than dropped. -/
theorem build_expr_budget (items : List Item) (e : String) (m : Nat) :
    ∀ s ∈ build_expr items e m, ∃ b ∈ buildExprBatches items e m,
      s = renderBatch b ∧ (2 ≤ b.length → s.length ≤ m) := by
  intro s hs
  rw [build_expr, buildExprGo_eq_map] at hs
  obtain ⟨b, hb, rfl⟩ := List.mem_map.mp hs
  refine ⟨b, hb, rfl, ?_⟩
  intro h2
  have hinv := batchesGo_budget_aux e m items [] (by intro h; simp at h) b hb h2
  have hne : b ≠ [] := by intro h; subst h; simp at h2
  have hlen := renderBatch_length b hne
  omega

theorem build_expr_budget_witness :
    ∃ b ∈ buildExprBatches [Item.int 1, Item.int 2] "Id" 16000,
      "expr=OR(Id=1,Id=2)" = renderBatch b ∧
      (2 ≤ b.length → ("expr=OR(Id=1,Id=2)" : String).length ≤ 16000) :=
  build_expr_budget [Item.int 1, Item.int 2] "Id" 16000 "expr=OR(Id=1,Id=2)"
    (by decide)

/-- C10: whenever the length check fires on the first item while the current
batch is still empty (rendered first item plus the 11-character prefix
template reaches `max_length`), the first yielded string is the degenerate
item-less expression `expr=OR()`, and only then is the oversized item batched. -/
theorem build_expr_degenerate (e : String) (m : Nat) (item : Item) (rest : List Item)
    (h : exprLen [] (formatItem e item) ≥ m) :
    (build_expr (item :: rest) e m).head? = some "expr=OR()" ∧
    (buildExprBatches (item :: rest) e m).head? = some [] := by
  constructor
  · simp [build_expr, buildExprGo, h, renderBatch, joinComma]
  · simp [buildExprBatches, buildExprBatchesGo, h]

theorem build_expr_degenerate_witness :
    (build_expr [Item.str "abcdefgh"] "Id" 10).head? = some "expr=OR()" ∧
    (buildExprBatches [Item.str "abcdefgh"] "Id" 10).head? = some [] :=
  build_expr_degenerate "Id" 10 (Item.str "abcdefgh") [] (by decide)

/-- Python `", ".join(and_queries)`. -/
def joinCommaSpace : List String → String
  | [] => ""
  | [x] => x
  | x :: y :: rest => x ++ ", " ++ joinCommaSpace (y :: rest)

/-- The per-item clause of `build_composite_expr`:
`"".join([f"And(Composite({entity_name} = ...), D=[...])"])`. -/
def compositeClause (entityName : String) (date : String × String) (v : String) :
    String :=
  String.join ["And(Composite(" ++ entityName ++ "=\x27" ++ v ++ "\x27), D=[\x27"
    ++ date.1 ++ "\x27, \x27" ++ date.2 ++ "\x27])"]

/-- `build_composite_expr(query_values, entity_name, date)`: one composite
expression with `And`s inside a single `OR`; note the source has no
`max_length` parameter and returns a single string. -/
def build_composite_expr (queryValues : List String) (entityName : String)
    (date : String × String) : String :=
  "expr=OR(" ++ joinCommaSpace (queryValues.map (compositeClause entityName date)) ++ ")"

theorem compositeClause_length (e d1 d2 v : String) :
    (compositeClause e (d1, d2) v).length
      = 31 + e.length + v.length + d1.length + d2.length := by
  have h1 : ("And(Composite(" : String).length = 14 := by decide
  have h2 : ("=\x27" : String).length = 2 := by decide
  have h3 : ("\x27), D=[\x27" : String).length = 8 := by decide
  have h4 : ("\x27, \x27" : String).length = 4 := by decide
  have h5 : ("\x27])" : String).length = 3 := by decide
  have h0 : ("" : String).length = 0 := by decide
  simp only [compositeClause, String.join, List.foldl_cons, List.foldl_nil,
    String.length_append, h0, h1, h2, h3, h4, h5]
  omega

theorem joinCommaSpace_length : ∀ (b : List String), b ≠ [] →
    (joinCommaSpace b).length + 2 = sumLen b + 2 * b.length := by
  intro b
  induction b with
  | nil => intro h; exact absurd rfl h
  | cons x t ih =>
    intro _
    cases t with
    | nil => simp [joinCommaSpace, sumLen]
    | cons y rest =>
      have h2 := ih (by simp)
      have hc : (", " : String).length = 2 := by decide
      have e1 : joinCommaSpace (x :: y :: rest)
          = x ++ ", " ++ joinCommaSpace (y :: rest) := rfl
      have e2 : sumLen (x :: y :: rest) = x.length + sumLen (y :: rest) := by
        simp [sumLen]
      rw [e1, e2, String.length_append, String.length_append, hc]
      simp only [List.length_cons] at *
      omega

theorem sumLen_map_clause (e d1 d2 : String) : ∀ (vs : List String),
    sumLen (vs.map (compositeClause e (d1, d2)))
      = (vs.map String.length).sum
        + vs.length * (31 + e.length + d1.length + d2.length) := by
  intro vs
  induction vs with
  | nil => simp [sumLen]
  | cons v t ih =>
    simp only [List.map_cons, sumLen, List.sum_cons, List.length_cons] at *
    rw [compositeClause_length, ih, Nat.succ_mul]
    ring

/-- A 20000-character query value. -/
def bigValue : String := String.mk (List.replicate 20000 'a')

/-- C5 counterexample: `build_composite_expr` performs no packing at all; for
a single 20000-character query value it returns one expression whose length
exceeds the configured default maximum of 16000, so its output is not kept
within the maximum length as the claim states. -/
theorem build_composite_expr_counterexample :
    16000 < (build_composite_expr [bigValue] "Ti" ("2000", "2020")).length := by
  have hb : bigValue.length = 20000 := List.length_replicate 20000 'a'
  have hc := compositeClause_length "Ti" "2000" "2020" bigValue
  have hTi : ("Ti" : String).length = 2 := by decide
  have hd1 : ("2000" : String).length = 4 := by decide
  have hd2 : ("2020" : String).length = 4 := by decide
  have h2 : ("expr=OR(" : String).length = 8 := by decide
  have h3 : (")" : String).length = 1 := by decide
  have hj : joinCommaSpace [compositeClause "Ti" ("2000", "2020") bigValue]
      = compositeClause "Ti" ("2000", "2020") bigValue := rfl
  simp only [build_composite_expr, List.map_cons, List.map_nil, hj,
    String.length_append, h2, h3, hc, hb, hTi, hd1, hd2]
  omega

/-- C5 (amended): `build_composite_expr` renders each item as the two-clause
`And(Composite(attr=value), D=[date0, date1])` against the shared date tuple,
but does not pack: it returns a single expression containing every item, with
no maximum-length budget; its length is exactly
`9 + sum of value lengths + n * (31 + |entity| + |date0| + |date1|) + 2*(n-1)`,
which grows without bound in the input. -/
theorem build_composite_expr_unbounded (vs : List String) (e d1 d2 : String)
    (h : vs ≠ []) :
    (build_composite_expr vs e (d1, d2)).length
      = 9 + (vs.map String.length).sum
        + vs.length * (31 + e.length + d1.length + d2.length)
        + 2 * (vs.length - 1) := by
  obtain ⟨v, t, rfl⟩ : ∃ v t, vs = v :: t := by
    cases vs with
    | nil => exact absurd rfl h
    | cons v t => exact ⟨v, t, rfl⟩
  have hmap : (v :: t).map (compositeClause e (d1, d2)) ≠ [] := by simp
  have hj := joinCommaSpace_length _ hmap
  have hs := sumLen_map_clause e d1 d2 (v :: t)
  have h2 : ("expr=OR(" : String).length = 8 := by decide
  have h3 : (")" : String).length = 1 := by decide
  rw [hs] at hj
  simp only [List.length_map, List.length_cons] at hj
  simp only [build_composite_expr, String.length_append, h2, h3,
    List.length_cons]
  generalize hP : (t.length + 1) * (31 + e.length + d1.length + d2.length) = P at hj ⊢
  omega

theorem build_composite_expr_unbounded_witness :
    (build_composite_expr ["a"] "Ti" ("2000", "2020")).length
      = 9 + ((["a"] : List String).map String.length).sum
        + (["a"] : List String).length
          * (31 + ("Ti" : String).length + ("2000" : String).length
              + ("2020" : String).length)
        + 2 * ((["a"] : List String).length - 1) :=
  build_composite_expr_unbounded ["a"] "Ti" "2000" "2020" (by decide)

/-- Whether an attempt outcome is a success (no exception raised: transport
ok, no timeout, and `raise_for_status` passed). -/
def attemptOk {E R : Type} : Except E R → Bool
  | Except.ok _ => true
  | Except.error _ => false

/-- The `@retry(stop_max_attempt_number=n)` loop around one network attempt:
`f i` is the predetermined outcome of attempt number `i` (0-based).  Returns
the final outcome together with the number of attempts consumed; on a success
it stops immediately, and once the attempt ceiling is reached the last
underlying exception is re-raised to the caller. -/
def retryCall {E R : Type} (f : Nat → Except E R) : Nat → Nat → Except E R × Nat
  | 0, i => (f i, 1)
  | 1, i => (f i, 1)
  | n + 2, i =>
    match f i with
    | Except.ok r => (Except.ok r, 1)
    | Except.error _ =>
      let p := retryCall f (n + 1) (i + 1)
      (p.1, p.2 + 1)

/-- `query_mag_api` as seen through its retry behaviour: the decorated call
with `stop_max_attempt_number=10`, starting at attempt 0. -/
def query_mag_api {E R : Type} (f : Nat → Except E R) : Except E R × Nat :=
  retryCall f 10 0

theorem retryCall_attempts_le {E R : Type} (f : Nat → Except E R) :
    ∀ (n i : Nat), (retryCall f n i).2 ≤ max 1 n := by
  intro n
  induction n using Nat.strong_induction_on with
  | _ n ih =>
    intro i
    match n with
    | 0 => simp [retryCall]
    | 1 => simp [retryCall]
    | m + 2 =>
      simp only [retryCall]
      cases f i with
      | ok r => simp
      | error e =>
        have := ih (m + 1) (by omega) (i + 1)
        simp only [max_eq_right (by omega : 1 ≤ m + 1)] at this
        simp only []
        omega

theorem retryCall_all_fail {E R : Type} (f : Nat → Except E R) :
    ∀ (n i : Nat), 1 ≤ n → (∀ j, j < n → attemptOk (f (i + j)) = false) →
      (retryCall f n i).1 = f (i + (n - 1)) := by
  intro n
  induction n using Nat.strong_induction_on with
  | _ n ih =>
    intro i hn hfail
    match n with
    | 1 => simp [retryCall]
    | m + 2 =>
      have h0 := hfail 0 (by omega)
      simp only [Nat.add_zero] at h0
      simp only [retryCall]
      cases hfi : f i with
      | ok r => rw [hfi] at h0; simp [attemptOk] at h0
      | error e =>
        have hrec := ih (m + 1) (by omega) (i + 1) (by omega)
          (by intro j hj; have := hfail (j + 1) (by omega); simpa [Nat.add_assoc, Nat.add_comm 1 j] using this)
        simp only []
        rw [hrec]
        congr 1
        omega

theorem retryCall_first_success {E R : Type} (f : Nat → Except E R) :
    ∀ (n i k : Nat) (r : R), k < n → (∀ j, j < k → attemptOk (f (i + j)) = false) →
      f (i + k) = Except.ok r → (retryCall f n i).1 = Except.ok r := by
  intro n
  induction n using Nat.strong_induction_on with
  | _ n ih =>
    intro i k r hk hfail hok
    match n with
    | 1 =>
      have : k = 0 := by omega
      subst this
      simpa using hok
    | m + 2 =>
      match k with
      | 0 =>
        simp only [Nat.add_zero] at hok
        simp [retryCall, hok]
      | k' + 1 =>
        have h0 := hfail 0 (by omega)
        simp only [Nat.add_zero] at h0
        simp only [retryCall]
        cases hfi : f i with
        | ok r2 => rw [hfi] at h0; simp [attemptOk] at h0
        | error e =>
          have hrec := ih (m + 1) (by omega) (i + 1) k' r (by omega)
            (by intro j hj; have := hfail (j + 1) (by omega); simpa [Nat.add_assoc, Nat.add_comm 1 j] using this)
            (by simpa [Nat.add_assoc, Nat.add_comm 1 k'] using hok)
          simpa using hrec

/-- C3: the decorated remote call makes at most 10 attempts; if every one of
the first 10 attempts fails (transport failure, timeout, or non-success
status), the terminal outcome is exactly the failure of attempt 9, the last
underlying cause; and if attempt `k < 10` is the first to succeed, the
successful response is returned with no error visible to the caller. -/
theorem query_mag_api_retry {E R : Type} (f : Nat → Except E R) :
    (query_mag_api f).2 ≤ 10 ∧
    ((∀ j, j < 10 → attemptOk (f j) = false) → (query_mag_api f).1 = f 9) ∧
    (∀ k r, k < 10 → (∀ j, j < k → attemptOk (f j) = false) →
      f k = Except.ok r → (query_mag_api f).1 = Except.ok r) := by
  refine ⟨?_, ?_, ?_⟩
  · have := retryCall_attempts_le f 10 0
    simpa [query_mag_api] using this
  · intro hfail
    have := retryCall_all_fail f 10 0 (by omega) (by simpa using hfail)
    simpa [query_mag_api] using this
  · intro k r hk hfail hok
    have := retryCall_first_success f 10 0 k r hk (by simpa using hfail)
      (by simpa using hok)
    simpa [query_mag_api] using this

theorem query_mag_api_retry_witness :
    (query_mag_api (fun i => if i = 9 then Except.ok 42 else Except.error i)).1
      = Except.ok 42 ∧
    (query_mag_api (fun i => (Except.error i : Except Nat Nat))).1
      = Except.error 9 ∧
    (query_mag_api (fun i => (Except.error i : Except Nat Nat))).2 ≤ 10 :=
  ⟨(query_mag_api_retry (fun i => if i = 9 then Except.ok 42 else Except.error i)).2.2
      9 42 (by decide) (by decide) (by rfl),
   (query_mag_api_retry (fun i => (Except.error i : Except Nat Nat))).2.1 (by decide),
   (query_mag_api_retry (fun i => (Except.error i : Except Nat Nat))).1⟩

/-- A JSON-like value inside a raw entity returned by the API. -/
inductive Value where
  | int (n : Int)
  | str (s : String)
  | list (vs : List Value)
  | obj (entries : List (String × Value))

/-- A raw entity / record: a Python dict modelled as an association list with
unique keys. -/
abbrev Row := List (String × Value)

/-- Python `row[k]` lookup (as an `Option`). -/
def rowFind : Row → String → Option Value
  | [], _ => none
  | (k, v) :: rest, key => if k = key then some v else rowFind rest key

/-- Python `del row[k]` / `row.pop(k)` on a present key: remove the entry. -/
def rowErase : Row → String → Row
  | [], _ => []
  | (k, v) :: rest, key => if k = key then rest else (k, v) :: rowErase rest key

/-- Python `row[k] = v`: overwrite in place if present, else append. -/
def rowSet : Row → String → Value → Row
  | [], key, val => [(key, val)]
  | (k, v) :: rest, key, val =>
    if k = key then (k, val) :: rest else (k, v) :: rowSet rest key val

/-- `fields_to_drop = ["logprob", "prob"]`. -/
def fields_to_drop : List String := ["logprob", "prob"]

/-- `field_mapping`: API field codes to descriptive keys. -/
def field_mapping : List (String × String) :=
  [("Id", "id"), ("DFN", "name"), ("FL", "level"),
   ("FP", "parent_ids"), ("FC", "child_ids")]

/-- `fields_to_compact = ["parent_ids", "child_ids"]`. -/
def fields_to_compact : List String := ["parent_ids", "child_ids"]

/-- `for f in fields_to_drop: del row[f]` — NOT guarded by try/except: a
missing key raises `KeyError`. -/
def dropFields : Row → List String → Except String Row
  | row, [] => Except.ok row
  | row, f :: fs =>
    match rowFind row f with
    | none => Except.error ("KeyError: " ++ f)
    | some _ => dropFields (rowErase row f) fs

/-- `for code, description in field_mapping.items(): try: row[description] =
row.pop(code) except KeyError: pass`. -/
def renameFields : Row → List (String × String) → Row
  | row, [] => row
  | row, (code, desc) :: rest =>
    match rowFind row code with
    | none => renameFields row rest
    | some v => renameFields (rowSet (rowErase row code) desc v) rest

/-- Outcome of evaluating `[ids["FId"] for ids in row[field]]` once `row[field]`
is a list: the extracted values, or the first exception the comprehension hits
(`KeyError` for a dict missing `"FId"`, `TypeError` for a non-dict element). -/
inductive FIdResult where
  | ok (vs : List Value)
  | keyError
  | typeError

def extractFIds : List Value → FIdResult
  | [] => FIdResult.ok []
  | Value.obj entries :: rest =>
    match rowFind entries "FId" with
    | none => FIdResult.keyError
    | some v =>
      match extractFIds rest with
      | FIdResult.ok vs => FIdResult.ok (v :: vs)
      | r => r
  | _ :: _ => FIdResult.typeError

/-- One step of `try: row[field] = [ids["FId"] for ids in row[field]] except
KeyError: pass`: a missing `field` or a `KeyError` inside the comprehension is
swallowed; a `TypeError` (non-list field, or non-dict element) propagates. -/
def compactField (row : Row) (f : String) : Except String Row :=
  match rowFind row f with
  | none => Except.ok row
  | some (Value.list vs) =>
    match extractFIds vs with
    | FIdResult.ok ids2 => Except.ok (rowSet row f (Value.list ids2))
    | FIdResult.keyError => Except.ok row
    | FIdResult.typeError => Except.error "TypeError"
  | some _ => Except.error "TypeError"

def compactFields : Row → List String → Except String Row
  | row, [] => Except.ok row
  | row, f :: fs =>
    match compactField row f with
    | Except.ok row2 => compactFields row2 fs
    | Except.error e => Except.error e

/-- The per-entity clean-up-and-formatting block of `query_fields_of_study`:
drop noise fields, rename field codes, compact nested id lists. -/
def cleanRow (row : Row) : Except String Row :=
  match dropFields row fields_to_drop with
  | Except.error e => Except.error e
  | Except.ok row1 =>
    match compactFields (renameFields row1 field_mapping) fields_to_compact with
    | Except.error e => Except.error e
    | Except.ok row2 => Except.ok row2

/-- Clean every entity of a page in order; the normalized records yielded
before any exception, together with the first exception if one occurred. -/
def cleanRows : List Row → List Row × Option String
  | [] => ([], none)
  | r :: rs =>
    match cleanRow r with
    | Except.error e => ([], some e)
    | Except.ok r2 =>
      let p := cleanRows rs
      (r2 :: p.1, p.2)

/-- The mocked remote client: `(expr, count, offset) ↦ entities` — the
`entities` list of the page `query_mag_api` returns for that request. -/
abbrev Client := String → Nat → Nat → List Row

/-- One request issued to the remote client. -/
structure Call where
  expr : String
  attrs : List String
  count : Nat
  offset : Nat
deriving DecidableEq

/-- What a run of the `query_fields_of_study` generator produced: the yielded
normalized records, the requests issued, and the exception that aborted the
generator, if any. -/
structure HarvestResult where
  records : List Row
  calls : List Call
  err : Option String

/-- Python `results_limit is not None and offset >= results_limit`, checked
after the offset advanced past the page just consumed. -/
def limitReached (resultsLimit : Option Nat) (offset2 : Nat) : Bool :=
  match resultsLimit with
  | some lim => decide (offset2 ≥ lim)
  | none => false

/-- The `while True` pagination loop of `query_fields_of_study` for one
expression, with explicit fuel; note the page size 1000 — the loop's local
`count = 1000` that shadows the `query_count` parameter.  Returns `none` if
fuel ran out before the loop ended. -/
def drainExpr (client : Client) (qexpr : String) (attrs : List String)
    (resultsLimit : Option Nat) :
    Nat → Nat → Option (List Row × List Call × Option String)
  | 0, _ => none
  | fuel + 1, offset =>
    if (client qexpr 1000 offset).isEmpty then
      some ([], [⟨qexpr, attrs, 1000, offset⟩], none)
    else
      match cleanRows (client qexpr 1000 offset) with
      | (rows, some e) => some (rows, [⟨qexpr, attrs, 1000, offset⟩], some e)
      | (rows, none) =>
        if limitReached resultsLimit (offset + (client qexpr 1000 offset).length) then
          some (rows, [⟨qexpr, attrs, 1000, offset⟩], none)
        else
          match drainExpr client qexpr attrs resultsLimit fuel
              (offset + (client qexpr 1000 offset).length) with
          | none => none
          | some (rows2, calls2, err2) =>
            some (rows ++ rows2, ⟨qexpr, attrs, 1000, offset⟩ :: calls2, err2)

/-- The outer `for expr in build_expr(*expr_args)` loop. -/
def drainAll (client : Client) (attrs : List String) (resultsLimit : Option Nat)
    (fuel : Nat) : List String → Option (List Row × List Call × Option String)
  | [] => some ([], [], none)
  | qe :: qes =>
    match drainExpr client qe attrs resultsLimit fuel 0 with
    | none => none
    | some (rows, calls, some e) => some (rows, calls, some e)
    | some (rows, calls, none) =>
      match drainAll client attrs resultsLimit fuel qes with
      | none => none
      | some (rows2, calls2, err2) =>
        some (rows ++ rows2, calls ++ calls2, err2)

/-- The `TypeError` raised on a bad ids/levels configuration. -/
def configError : String := "TypeError: Field of study ids OR levels should be supplied"

/-- The default `fields` argument of `query_fields_of_study`. -/
def defaultFields : List String := ["Id", "DFN", "FL", "FP.FId", "FC.FId"]

/-- `query_fields_of_study(subscription_key, ids, levels, fields, query_count,
results_limit)` run against a mocked client.  Exactly one of `ids`/`levels`
must be supplied, else the `TypeError` is raised before any client call; the
`queryCount` parameter is accepted but never used (the loop's local
`count = 1000` shadows it). -/
def query_fields_of_study (client : Client) (ids : Option (List Int))
    (levels : Option (List Int)) (attrs : List String) (queryCount : Nat)
    (resultsLimit : Option Nat) (fuel : Nat) : Option HarvestResult :=
  match ids, levels with
  | some i, none =>
    (drainAll client attrs resultsLimit fuel
        (build_expr (i.map Item.int) "Id" 16000)).map
      (fun t => ⟨t.1, t.2.1, t.2.2⟩)
  | none, some l =>
    (drainAll client attrs resultsLimit fuel
        (build_expr (l.map Item.int) "FL" 16000)).map
      (fun t => ⟨t.1, t.2.1, t.2.2⟩)
  | _, _ => some ⟨[], [], some configError⟩

theorem rowFind_erase_ne (row : Row) (key other : String) (h : key ≠ other) :
    rowFind (rowErase row other) key = rowFind row key := by
  induction row with
  | nil => rfl
  | cons p rest ih =>
    obtain ⟨a, v⟩ := p
    by_cases ha : a = other
    · subst ha
      have hak : ¬(a = key) := fun hh => h (hh ▸ rfl)
      simp [rowErase, rowFind, hak]
    · by_cases hak : a = key <;> simp [rowErase, rowFind, ha, hak, ih, h]

theorem rowFind_erase_none (row : Row) (key other : String)
    (h : rowFind row key = none) :
    rowFind (rowErase row other) key = none := by
  induction row with
  | nil => rfl
  | cons p rest ih =>
    obtain ⟨a, v⟩ := p
    by_cases hak : a = key
    · subst hak
      simp [rowFind] at h
    · simp only [rowFind, if_neg hak] at h
      by_cases ha : a = other
      · simp [rowErase, ha, h]
      · simp [rowErase, ha, rowFind, hak, ih h]

theorem renameFields_of_absent (row : Row) :
    ∀ (mp : List (String × String)), (∀ p ∈ mp, rowFind row p.1 = none) →
      renameFields row mp = row := by
  intro mp
  induction mp with
  | nil => intro _; rfl
  | cons q rest ih =>
    intro habs
    obtain ⟨code, desc⟩ := q
    have hc : rowFind row code = none := habs (code, desc) (List.mem_cons_self _ _)
    simp only [renameFields, hc]
    exact ih (fun p hp => habs p (List.mem_cons_of_mem _ hp))

theorem compactField_of_absent (row : Row) (f : String)
    (h : rowFind row f = none) : compactField row f = Except.ok row := by
  unfold compactField
  rw [h]

/-- C4 counterexample: a raw entity missing the noise field `logprob` makes
the field-remapping transform raise `KeyError` (the `del row[f]` loop is not
guarded by try/except), so absence of a noise field to drop is NOT tolerated
silently. -/
theorem cleanRow_missing_noise_counterexample :
    cleanRow [("prob", Value.int 0), ("Id", Value.int 5)]
      = Except.error "KeyError: logprob" := by rfl

/-- C4 (amended): absence of a mapped field code to rename or of a nested-list
field to compact is tolerated silently (the transform does not raise, and the
descriptive key is simply absent from the output rather than set to null);
but the noise fields to drop are required: a raw entity missing `logprob`
(or `prob`) makes the transform raise `KeyError`. -/
theorem cleanRow_field_absence :
    (∀ row : Row, rowFind row "logprob" = none →
      cleanRow row = Except.error "KeyError: logprob") ∧
    (∀ (row : Row) (mp : List (String × String)),
      (∀ p ∈ mp, rowFind row p.1 = none) → renameFields row mp = row) ∧
    (∀ (row : Row) (f : String), rowFind row f = none →
      compactField row f = Except.ok row) ∧
    (∀ row : Row, (rowFind row "logprob").isSome → (rowFind row "prob").isSome →
      (∀ p ∈ field_mapping, rowFind row p.1 = none) →
      (∀ f ∈ fields_to_compact, rowFind row f = none) →
      cleanRow row = Except.ok (rowErase (rowErase row "logprob") "prob") ∧
      (∀ p ∈ field_mapping, rowFind row p.2 = none →
        rowFind (rowErase (rowErase row "logprob") "prob") p.2 = none)) := by
  refine ⟨?_, ?_, ?_, ?_⟩
  · intro row h
    simp only [cleanRow, fields_to_drop, dropFields, h]
    rfl
  · exact renameFields_of_absent
  · exact compactField_of_absent
  · intro row hlp hp hmap hcmp
    obtain ⟨v1, hv1⟩ := Option.isSome_iff_exists.mp hlp
    obtain ⟨v2, hv2⟩ := Option.isSome_iff_exists.mp hp
    have hv2b : rowFind (rowErase row "logprob") "prob" = some v2 := by
      rw [rowFind_erase_ne _ _ _ (by decide)]
      exact hv2
    have hdrop : dropFields row fields_to_drop
        = Except.ok (rowErase (rowErase row "logprob") "prob") := by
      simp only [fields_to_drop, dropFields, hv1, hv2b]
    have hmap2 : ∀ p ∈ field_mapping,
        rowFind (rowErase (rowErase row "logprob") "prob") p.1 = none := by
      intro p hp2
      exact rowFind_erase_none _ _ _ (rowFind_erase_none _ _ _ (hmap p hp2))
    have hren : renameFields (rowErase (rowErase row "logprob") "prob") field_mapping
        = rowErase (rowErase row "logprob") "prob" :=
      renameFields_of_absent _ field_mapping hmap2
    have hcmp2 : ∀ f ∈ fields_to_compact,
        rowFind (rowErase (rowErase row "logprob") "prob") f = none := by
      intro f hf
      exact rowFind_erase_none _ _ _ (rowFind_erase_none _ _ _ (hcmp f hf))
    have hc1 : compactField (rowErase (rowErase row "logprob") "prob") "parent_ids"
        = Except.ok (rowErase (rowErase row "logprob") "prob") :=
      compactField_of_absent _ _ (hcmp2 "parent_ids" (by decide))
    have hc2 : compactField (rowErase (rowErase row "logprob") "prob") "child_ids"
        = Except.ok (rowErase (rowErase row "logprob") "prob") :=
      compactField_of_absent _ _ (hcmp2 "child_ids" (by decide))
    constructor
    · simp only [cleanRow, hdrop, hren, fields_to_compact, compactFields, hc1, hc2]
    · intro p _ hdesc
      exact rowFind_erase_none _ _ _ (rowFind_erase_none _ _ _ hdesc)

theorem cleanRow_field_absence_witness :
    cleanRow [("prob", Value.int 0), ("Id", Value.int 5)]
      = Except.error "KeyError: logprob" ∧
    (cleanRow [("logprob", Value.int 1), ("prob", Value.int 2), ("x", Value.int 3)]
      = Except.ok (rowErase (rowErase
          [("logprob", Value.int 1), ("prob", Value.int 2), ("x", Value.int 3)]
          "logprob") "prob") ∧
     (∀ p ∈ field_mapping,
       rowFind [("logprob", Value.int 1), ("prob", Value.int 2), ("x", Value.int 3)]
           p.2 = none →
       rowFind (rowErase (rowErase
           [("logprob", Value.int 1), ("prob", Value.int 2), ("x", Value.int 3)]
           "logprob") "prob") p.2 = none)) :=
  ⟨cleanRow_field_absence.1 _ rfl,
   cleanRow_field_absence.2.2.2 _ rfl rfl
     (by intro p hp; fin_cases hp <;> rfl)
     (by intro f hf; fin_cases hf <;> rfl)⟩

theorem extractFIds_map (ns : List Int) :
    extractFIds (ns.map (fun n => Value.obj [("FId", Value.int n)]))
      = FIdResult.ok (ns.map Value.int) := by
  induction ns with
  | nil => rfl
  | cons n t ih => simp [extractFIds, rowFind, ih]

/-- C8: a raw entity whose nested-list field (`FP`, renamed to `parent_ids`,
or `FC`, renamed to `child_ids`) holds a list of single-key `FId` objects has
that field replaced by the plain list of the extracted values in the yielded
normalized record. -/
theorem cleanRow_compacts_nested (a b : Value) (ns : List Int) :
    cleanRow [("logprob", a), ("prob", b),
        ("FP", Value.list (ns.map (fun n => Value.obj [("FId", Value.int n)])))]
      = Except.ok [("parent_ids", Value.list (ns.map Value.int))] ∧
    cleanRow [("logprob", a), ("prob", b),
        ("FC", Value.list (ns.map (fun n => Value.obj [("FId", Value.int n)])))]
      = Except.ok [("child_ids", Value.list (ns.map Value.int))] := by
  constructor <;>
    simp [cleanRow, fields_to_drop, dropFields, rowFind, rowErase, field_mapping,
      renameFields, rowSet, fields_to_compact, compactFields, compactField,
      extractFIds_map]

/-- C6: supplying both an identifier list and a level list, or neither, raises
the configuration `TypeError` before any network activity: the client is
invoked zero times and no record is yielded. -/
theorem qfos_config_error :
    (∀ (client : Client) (i l : List Int) (attrs : List String) (qc : Nat)
        (rl : Option Nat) (fuel : Nat),
      query_fields_of_study client (some i) (some l) attrs qc rl fuel
        = some ⟨[], [], some configError⟩) ∧
    (∀ (client : Client) (attrs : List String) (qc : Nat) (rl : Option Nat)
        (fuel : Nat),
      query_fields_of_study client none none attrs qc rl fuel
        = some ⟨[], [], some configError⟩) := by
  constructor <;> intros <;> rfl

/-- The raw entity used for the mocked pagination run: carries the noise
fields plus an `Id`. -/
def sampleEntity : Row := [("logprob", Value.int 0), ("prob", Value.int 0), ("Id", Value.int 5)]

/-- `sampleEntity` after the clean-up-and-formatting transform. -/
def sampleRecord : Row := [("id", Value.int 5)]

theorem cleanRow_sampleEntity : cleanRow sampleEntity = Except.ok sampleRecord := by rfl

theorem cleanRows_replicate (r r2 : Row) (h : cleanRow r = Except.ok r2) :
    ∀ n : Nat, cleanRows (List.replicate n r) = (List.replicate n r2, none) := by
  intro n
  induction n with
  | zero => rfl
  | succ k ih => simp [List.replicate_succ, cleanRows, h, ih]

/-- A mocked client serving, for any expression, two pages of 1000 entities
(at offsets below 2000) and empty pages beyond. -/
def pagedClient : Client := fun _ _ offset =>
  if offset < 2000 then List.replicate 1000 sampleEntity else []

theorem pagedClient_page (c : Nat) (offset : Nat) (h : offset < 2000) :
    pagedClient "expr=OR(Id=0)" c offset = List.replicate 1000 sampleEntity := by
  simp [pagedClient, h]

theorem pagedClient_empty (c : Nat) (offset : Nat) (h : ¬offset < 2000) :
    pagedClient "expr=OR(Id=0)" c offset = [] := by
  simp [pagedClient, h]

theorem drainExpr_paged_2000 (k : Nat) :
    drainExpr pagedClient "expr=OR(Id=0)" defaultFields none (k + 1) 2000
      = some ([], [⟨"expr=OR(Id=0)", defaultFields, 1000, 2000⟩], none) := by
  simp only [drainExpr]
  rw [pagedClient_empty 1000 2000 (by omega)]
  rfl

theorem drainExpr_paged_1000 (k : Nat) :
    drainExpr pagedClient "expr=OR(Id=0)" defaultFields none (k + 1 + 1) 1000
      = some (List.replicate 1000 sampleRecord,
          [⟨"expr=OR(Id=0)", defaultFields, 1000, 1000⟩,
           ⟨"expr=OR(Id=0)", defaultFields, 1000, 2000⟩], none) := by
  have hpage := pagedClient_page 1000 1000 (by omega)
  have hclean := cleanRows_replicate sampleEntity sampleRecord cleanRow_sampleEntity 1000
  have hne : (List.replicate 1000 sampleEntity).isEmpty = false := rfl
  have hlen : (List.replicate 1000 sampleEntity).length = 1000 :=
    List.length_replicate 1000 sampleEntity
  rw [drainExpr]
  simp only [hpage, hclean, hne, hlen, limitReached, Bool.false_eq_true, if_false,
    show (1000 : Nat) + 1000 = 2000 from rfl, drainExpr_paged_2000 k,
    List.append_nil]

theorem drainExpr_paged_0 (k : Nat) :
    drainExpr pagedClient "expr=OR(Id=0)" defaultFields none (k + 1 + 1 + 1) 0
      = some (List.replicate 1000 sampleRecord ++ List.replicate 1000 sampleRecord,
          [⟨"expr=OR(Id=0)", defaultFields, 1000, 0⟩,
           ⟨"expr=OR(Id=0)", defaultFields, 1000, 1000⟩,
           ⟨"expr=OR(Id=0)", defaultFields, 1000, 2000⟩], none) := by
  have hpage := pagedClient_page 1000 0 (by omega)
  have hclean := cleanRows_replicate sampleEntity sampleRecord cleanRow_sampleEntity 1000
  have hne : (List.replicate 1000 sampleEntity).isEmpty = false := rfl
  have hlen : (List.replicate 1000 sampleEntity).length = 1000 :=
    List.length_replicate 1000 sampleEntity
  rw [drainExpr]
  simp only [hpage, hclean, hne, hlen, limitReached, Bool.false_eq_true, if_false,
    show (0 : Nat) + 1000 = 1000 from rfl, drainExpr_paged_1000 k]

theorem build_expr_single_id :
    build_expr [Item.int 0] "Id" 16000 = ["expr=OR(Id=0)"] := by decide

/-- C7: with no result limit and the mocked two-pages-then-empty client, the
harvester (for the single expression built from `ids = [0]`) yields exactly
2000 normalized records, issues exactly three client calls at offsets 0, 1000
and 2000 (each offset advanced by the size of the previous page), and then
terminates with no further calls, for every fuel budget of at least 3. -/
theorem qfos_pagination (k : Nat) :
    query_fields_of_study pagedClient (some [0]) none defaultFields 1000 none (k + 3)
      = some ⟨List.replicate 1000 sampleRecord ++ List.replicate 1000 sampleRecord,
          [⟨"expr=OR(Id=0)", defaultFields, 1000, 0⟩,
           ⟨"expr=OR(Id=0)", defaultFields, 1000, 1000⟩,
           ⟨"expr=OR(Id=0)", defaultFields, 1000, 2000⟩], none⟩ ∧
    (List.replicate 1000 sampleRecord ++ List.replicate 1000 sampleRecord).length
      = 2000 := by
  constructor
  · rw [show query_fields_of_study pagedClient (some [0]) none defaultFields
          1000 none (k + 3)
        = (drainAll pagedClient defaultFields none (k + 3)
            (build_expr [Item.int 0] "Id" 16000)).map
              (fun t => ⟨t.1, t.2.1, t.2.2⟩) from rfl]
    simp only [build_expr_single_id]
    simp only [drainAll]
    simp only [show k + 3 = k + 1 + 1 + 1 from rfl]
    simp only [drainExpr_paged_0 k, List.append_nil, Option.map_some']
  · rw [List.length_append, List.length_replicate]

theorem drainExpr_calls_count (client : Client) (qe : String) (attrs : List String)
    (rl : Option Nat) :
    ∀ (fuel offset : Nat) (rows : List Row) (calls : List Call)
      (err2 : Option String),
      drainExpr client qe attrs rl fuel offset = some (rows, calls, err2) →
      ∀ c ∈ calls, c.count = 1000 := by
  intro fuel
  induction fuel with
  | zero =>
    intro offset rows calls err2 h
    simp [drainExpr] at h
  | succ n ih =>
    intro offset rows calls err2 h c hc
    rw [drainExpr] at h
    split at h
    · simp only [Option.some.injEq, Prod.mk.injEq] at h
      obtain ⟨-, hcalls, -⟩ := h
      rw [← hcalls] at hc
      simp only [List.mem_singleton] at hc
      subst hc; rfl
    · split at h
      · simp only [Option.some.injEq, Prod.mk.injEq] at h
        obtain ⟨-, hcalls, -⟩ := h
        rw [← hcalls] at hc
        simp only [List.mem_singleton] at hc
        subst hc; rfl
      · split at h
        · simp only [Option.some.injEq, Prod.mk.injEq] at h
          obtain ⟨-, hcalls, -⟩ := h
          rw [← hcalls] at hc
          simp only [List.mem_singleton] at hc
          subst hc; rfl
        · split at h
          · exact absurd h (by simp)
          · rename_i rows2 calls2 err3 heq
            simp only [Option.some.injEq, Prod.mk.injEq] at h
            obtain ⟨-, hcalls, -⟩ := h
            rw [← hcalls] at hc
            rcases List.mem_cons.mp hc with rfl | hc2
            · rfl
            · exact ih _ _ _ _ heq c hc2

theorem drainAll_calls_count (client : Client) (attrs : List String)
    (rl : Option Nat) (fuel : Nat) :
    ∀ (qes : List String) (rows : List Row) (calls : List Call)
      (err2 : Option String),
      drainAll client attrs rl fuel qes = some (rows, calls, err2) →
      ∀ c ∈ calls, c.count = 1000 := by
  intro qes
  induction qes with
  | nil =>
    intro rows calls err2 h c hc
    simp only [drainAll, Option.some.injEq, Prod.mk.injEq] at h
    obtain ⟨-, hcalls, -⟩ := h
    rw [← hcalls] at hc
    simp at hc
  | cons qe rest ih =>
    intro rows calls err2 h c hc
    rw [drainAll] at h
    split at h
    · exact absurd h (by simp)
    · rename_i rows1 calls1 e heq
      simp only [Option.some.injEq, Prod.mk.injEq] at h
      obtain ⟨-, hcalls, -⟩ := h
      rw [← hcalls] at hc
      exact drainExpr_calls_count client qe attrs rl fuel 0 rows1 calls1 (some e)
        heq c hc
    · rename_i rows1 calls1 heq
      split at h
      · exact absurd h (by simp)
      · rename_i rows2 calls2 err3 heq2
        simp only [Option.some.injEq, Prod.mk.injEq] at h
        obtain ⟨-, hcalls, -⟩ := h
        rw [← hcalls] at hc
        rcases List.mem_append.mp hc with hc1 | hc2
        · exact drainExpr_calls_count client qe attrs rl fuel 0 rows1 calls1 none
            heq c hc1
        · exact ih _ _ _ heq2 c hc2

/-- C9: the `query_count` parameter of `query_fields_of_study` has no effect:
two invocations differing only in `query_count` produce identical results
(records, calls and error alike), and every request issued to the remote
client carries the hard-coded page size 1000 that shadows the parameter. -/
theorem qfos_query_count_ignored :
    (∀ (client : Client) (ids levels : Option (List Int)) (attrs : List String)
        (qc1 qc2 : Nat) (rl : Option Nat) (fuel : Nat),
      query_fields_of_study client ids levels attrs qc1 rl fuel
        = query_fields_of_study client ids levels attrs qc2 rl fuel) ∧
    (∀ (client : Client) (ids levels : Option (List Int)) (attrs : List String)
        (qc : Nat) (rl : Option Nat) (fuel : Nat) (res : HarvestResult) (c : Call),
      query_fields_of_study client ids levels attrs qc rl fuel = some res →
      c ∈ res.calls → c.count = 1000) := by
  constructor
  · intro client ids levels attrs qc1 qc2 rl fuel
    rfl
  · intro client ids levels attrs qc rl fuel res c h hc
    rcases ids with _ | i
    · rcases levels with _ | l
      · simp only [query_fields_of_study, Option.some.injEq] at h
        subst h
        simp at hc
      · rw [query_fields_of_study] at h
        cases hdr : drainAll client attrs rl fuel
            (build_expr (l.map Item.int) "FL" 16000) with
        | none => rw [hdr] at h; simp at h
        | some t =>
          obtain ⟨rows, calls, err2⟩ := t
          rw [hdr] at h
          simp only [Option.map_some', Option.some.injEq] at h
          subst h
          exact drainAll_calls_count client attrs rl fuel _ rows calls err2 hdr c hc
    · rcases levels with _ | l
      · rw [query_fields_of_study] at h
        cases hdr : drainAll client attrs rl fuel
            (build_expr (i.map Item.int) "Id" 16000) with
        | none => rw [hdr] at h; simp at h
        | some t =>
          obtain ⟨rows, calls, err2⟩ := t
          rw [hdr] at h
          simp only [Option.map_some', Option.some.injEq] at h
          subst h
          exact drainAll_calls_count client attrs rl fuel _ rows calls err2 hdr c hc
      · simp only [query_fields_of_study, Option.some.injEq] at h
        subst h
        simp at hc

/-- A client that always reports an empty page. -/
def emptyClient : Client := fun _ _ _ => []

theorem qfos_query_count_ignored_witness :
    (⟨"expr=OR(Id=0)", defaultFields, 1000, 0⟩ : Call).count = 1000 :=
  qfos_query_count_ignored.2 emptyClient (some [0]) none defaultFields 7 none 1
    ⟨[], [⟨"expr=OR(Id=0)", defaultFields, 1000, 0⟩], none⟩
    ⟨"expr=OR(Id=0)", defaultFields, 1000, 0⟩
    (by rfl) (List.mem_singleton.mpr rfl)
